import Mathlib

/-!
# Verification of the flower image-classifier notebook

Shallow embedding of the Python code in `Image Classifier Project.ipynb`
(helpers `accuracy_score`, `ValueCache`, `get_data`, `save_checkpoint`,
`load_checkpoint`, `process_image`, `predict`), together with proofs of the
testable properties stated in the specification.

Modelling conventions:
* Python floats are embedded as exact rationals `ℚ` (or reals `ℝ` where the
  code applies the transcendental softmax); Python ints as `ℤ`/`ℕ`.
* `torch.topk(·, k, dim, largest := True, sorted := True)` is embedded per
  row by sorting the indexed entries by value descending and taking the
  first `k`.  Ties are broken by ascending index; the spec explicitly leaves
  tie order as an implementation detail.  `topk` with `k` larger than the
  row length raises in PyTorch, which the embeddings guard explicitly.
* Failing Python operations (`ZeroDivisionError`, `FileNotFoundError`,
  `raise`) are embedded with `Option`/`Except`.
-/

namespace FlowerNotebook

/-! ## Definitions: shallow embedding of the notebook code -/

/-- One row of `torch.topk`: the entries of `row` paired with their indices,
sorted by value descending (ties: ascending index, a fixed deterministic
stand-in for the unspecified PyTorch tie order). -/
def topkSort {α : Type} [LinearOrder α] (row : List α) : List (ℕ × α) :=
  row.enum.insertionSort (fun a b => b.2 < a.2 ∨ (a.2 = b.2 ∧ a.1 ≤ b.1))

/-- The indices returned by `torch.topk(row, k)` (second return value). -/
def topkIdx {α : Type} [LinearOrder α] (k : ℕ) (row : List α) : List ℕ :=
  ((topkSort row).map Prod.fst).take k

/-- The values returned by `torch.topk(row, k)` (first return value). -/
def topkVals {α : Type} [LinearOrder α] (k : ℕ) (row : List α) : List α :=
  ((topkSort row).map Prod.snd).take k

/-- Embedding of `accuracy_score(output, target, top_k)` from the notebook.  For each
requested `k`, takes the first `k` of the `max(top_k)` top predictions per
example, counts the (rank, example) matches against the true label — the
source forms the boolean matrix `correct = preds.eq(target…)`, slices
`correct[:k]` and sums it, which is the same count — and multiplies by
`100.0 / n_batch`.  `none` embeds the failure cases of the source: `max` of
an empty tuple, `topk` with `k` exceeding the class dimension, and the
division `100.0 / 0` on an empty batch. -/
def accuracy_score (output : List (List ℚ)) (target : List ℕ)
    (top_k : List ℕ) : Option (List ℚ) :=
  let max_k := top_k.foldr max 0
  let n_batch := target.length
  if top_k = [] ∨ target = [] ∨ ¬ (∀ row ∈ output, max_k ≤ row.length) then
    none
  else
    let preds := output.map (fun row => topkIdx max_k row)
    some (top_k.map (fun k =>
      (((preds.zip target).map
          (fun pt => ((((pt.1.take k).countP (fun p => p == pt.2)) : ℕ) : ℚ))).sum)
        * (100 / (n_batch : ℚ))))

/-- State of the `ValueCache` object of the notebook: latest value, running sum,
running count and mean.  Floats are embedded as `ℚ`, the integer count as
`ℤ` (Python `update` is also called with a tensor dimension, an int). -/
structure ValueCache where
  value : ℚ
  sum : ℚ
  count : ℤ
  mean : ℚ
deriving DecidableEq

/-- Embedding of `ValueCache.reset`: zeroes value, sum, count and mean. -/
def ValueCache.reset (_s : ValueCache) : ValueCache := ⟨0, 0, 0, 0⟩

/-- Embedding of `ValueCache.__init__`, which just calls `reset`. -/
def ValueCache.init : ValueCache := ValueCache.reset ⟨0, 0, 0, 0⟩

/-- Embedding of `ValueCache.update(value, n)` (Python default `n=1`):
stores the raw value, adds `value * n`
to the sum, `n` to the count and recomputes `mean = sum / count`.  The
Python division raises `ZeroDivisionError` when the new count is zero,
embedded as `none`. -/
def ValueCache.update (s : ValueCache) (value : ℚ) (n : ℤ) : Option ValueCache :=
  let sum' := s.sum + value * (n : ℚ)
  let count' := s.count + n
  if count' = 0 then none
  else some ⟨value, sum', count', sum' / (count' : ℚ)⟩

/-- Python `int()` applied to a float: truncation toward zero. -/
def pyint (q : ℚ) : ℤ := if 0 ≤ q then ⌊q⌋ else ⌈q⌉

/-- A PIL image: width, height and an RGB pixel function.  Pixel
coordinates are integers; values at out-of-canvas coordinates are
irrelevant to every statement proved below. -/
structure PILImage where
  width : ℕ
  height : ℕ
  px : ℤ → ℤ → Fin 3 → ℤ

/-- Embedding of `PIL.Image.resize((w1, h1))`: the new canvas is exactly
`w1 × h1`.
Pixel values are modelled by nearest-neighbour sampling; the geometric
facts proved below do not depend on the PIL resampling kernel. -/
def PILImage.resize (img : PILImage) (newW newH : ℤ) : PILImage :=
  ⟨newW.toNat, newH.toNat,
    fun x y c => img.px (x * (img.width : ℤ) / newW) (y * (img.height : ℤ) / newH) c⟩

/-- Embedding of `PIL.Image.crop((left, upper, right, lower))`: a canvas of
size
`(right-left) × (lower-upper)` whose pixel `(x, y)` is the source pixel
`(left+x, upper+y)`. -/
def PILImage.crop (img : PILImage) (left upper right lower : ℤ) : PILImage :=
  ⟨(right - left).toNat, (lower - upper).toNat,
    fun x y c => img.px (left + x) (upper + y) c⟩

/-- A numpy array in the `H × W × C` layout of `np.array(pil_image)`. -/
structure NPArrayHWC where
  height : ℕ
  width : ℕ
  entry : ℕ → ℕ → Fin 3 → ℚ

/-- A numpy array in channel-first `C × H × W` layout. -/
structure NPArrayCHW where
  height : ℕ
  width : ℕ
  entry : Fin 3 → ℕ → ℕ → ℚ

/-- Embedding of `np.array(pil_image)`: row `y`, column `x`, channel `c`. -/
def npOfImage (img : PILImage) : NPArrayHWC :=
  ⟨img.height, img.width, fun y x c => ((img.px (x : ℤ) (y : ℤ) c : ℤ) : ℚ)⟩

/-- numpy broadcast `arr / d`. -/
def NPArrayHWC.divScalar (a : NPArrayHWC) (d : ℚ) : NPArrayHWC :=
  ⟨a.height, a.width, fun y x c => a.entry y x c / d⟩

/-- numpy broadcast `(arr - mean) / std` over the trailing channel axis. -/
def NPArrayHWC.normalize (a : NPArrayHWC) (mean std : Fin 3 → ℚ) : NPArrayHWC :=
  ⟨a.height, a.width, fun y x c => (a.entry y x c - mean c) / std c⟩

/-- Embedding of `arr.transpose((2, 0, 1))`: move the channel axis first. -/
def NPArrayHWC.transposeCHW (a : NPArrayHWC) : NPArrayCHW :=
  ⟨a.height, a.width, fun c y x => a.entry y x c⟩

/-- The fixed normalization mean `[0.485, 0.456, 0.406]`. -/
def imgMean : Fin 3 → ℚ := fun c => match c with
  | 0 => 0.485
  | 1 => 0.456
  | 2 => 0.406

/-- The fixed normalization standard deviation `[0.229, 0.224, 0.225]`. -/
def imgStd : Fin 3 → ℚ := fun c => match c with
  | 0 => 0.229
  | 1 => 0.224
  | 2 => 0.225

/-- The resize factor `scale = (out_size + 32) / np.min([w, h])`. -/
def rescale (image : PILImage) (out_size : ℕ) : ℚ :=
  ((out_size : ℚ) + 32) / ((min image.width image.height : ℕ) : ℚ)

/-- Resized width `int(scale * w)`. -/
def resizedW (image : PILImage) (out_size : ℕ) : ℤ :=
  pyint (rescale image out_size * (image.width : ℚ))

/-- Resized height `int(scale * h)`. -/
def resizedH (image : PILImage) (out_size : ℕ) : ℤ :=
  pyint (rescale image out_size * (image.height : ℚ))

/-- Left edge of the center crop, `int(image.size[0]/2 - out_size/2)`
computed on the resized image. -/
def cropLeft (image : PILImage) (out_size : ℕ) : ℤ :=
  pyint ((((resizedW image out_size).toNat : ℕ) : ℚ) / 2 - (out_size : ℚ) / 2)

/-- Top edge of the center crop, `int(image.size[1]/2 - out_size/2)`
computed on the resized image. -/
def cropUpper (image : PILImage) (out_size : ℕ) : ℤ :=
  pyint ((((resizedH image out_size).toNat : ℕ) : ℚ) / 2 - (out_size : ℚ) / 2)

/-- Embedding of `process_image(image, out_size)` from the notebook: resize by the single
factor `scale` (truncating each dimension with `int()`), center-crop an
`out_size × out_size` box, convert to a numpy array, divide by 255,
subtract `imgMean` and divide by `imgStd` channelwise, and move the channel
axis first. -/
def process_image (image : PILImage) (out_size : ℕ) : NPArrayCHW :=
  let image1 := image.resize (resizedW image out_size) (resizedH image out_size)
  let left := cropLeft image out_size
  let upper := cropUpper image out_size
  let image2 := image1.crop left upper (left + (out_size : ℤ)) (upper + (out_size : ℤ))
  (((npOfImage image2).divScalar 255).normalize imgMean imgStd).transposeCHW

/-- A concrete 10 × 20 test image with constant pixel value 7. -/
def testImg : PILImage := ⟨10, 20, fun _ _ _ => 7⟩

/-- Embedding of `nn.Softmax(dim=1)` applied to a score vector, with the real
exponential. -/
noncomputable def softmax (xs : List ℝ) : List ℝ :=
  xs.map (fun v => Real.exp v / (xs.map Real.exp).sum)

/-- The trained model as `predict` sees it: a forward pass on a
preprocessed image (the weights and the `double()`/`to(cpu)`/`eval()` state
are folded into the pure function) and the `class_to_idx` attribute. -/
structure PModel where
  forward : NPArrayCHW → List ℝ
  class_to_idx : List (String × ℕ)

/-- The ambient filesystem: `os.path.isfile`, and `Image.open` (`none`
embeds a file whose bytes do not decode to an image). -/
structure FileSys where
  isfile : String → Bool
  openImage : String → Option PILImage

/-- The ways `predict` can raise: the explicit `FileNotFoundError`, a PIL
decoding error from `Image.open`, the `RuntimeError` of `torch.topk` when
`topk` exceeds the number of classes, and the `ValueError` of
`k, v = zip(*model.class_to_idx.items())` on an empty mapping. -/
inductive PredictErr
  | fileNotFound (path : String)
  | imageDecode
  | topkOutOfRange
  | emptyClassMap
deriving DecidableEq

/-- Python `dict(pairs).get(key)`: later pairs override earlier ones,
missing keys give `None`. -/
def dictGet {α β : Type} [BEq α] (pairs : List (α × β)) (key : α) : Option β :=
  pairs.reverse.lookup key

/-- Embedding of `predict(image_path, model, topk)` from the notebook: raise
`FileNotFoundError` unless `os.path.isfile(image_path)`; otherwise open and
preprocess the image, run the forward pass, take the top-`topk` scores and
indices, invert `class_to_idx` into an index-to-class dict, map each
selected index through `.get` (`None` for missing keys), apply the softmax
to the selected top scores only, and return
`(probabilities, class labels, preprocessed image)`. -/
noncomputable def predict (fs : FileSys) (image_path : String) (model : PModel)
    (topk : ℕ) : Except PredictErr (List ℝ × List (Option String) × NPArrayCHW) :=
  if fs.isfile image_path = false then
    .error (.fileNotFound image_path)
  else
    match fs.openImage image_path with
    | none => .error .imageDecode
    | some img =>
      let image := process_image img 299
      let output := model.forward image
      if output.length < topk then .error .topkOutOfRange
      else
        let prob0 := topkVals topk output
        let label_idx := topkIdx topk output
        match model.class_to_idx with
        | [] => .error .emptyClassMap
        | _ :: _ =>
          let idx_to_class := model.class_to_idx.map (fun p => (p.2, p.1))
          let label_classes := label_idx.map (fun i => dictGet idx_to_class i)
          let prob := softmax prob0
          .ok (prob, label_classes, image)

/-- A filesystem with no files at all. -/
def emptyFS : FileSys := ⟨fun _ => false, fun _ => none⟩

/-- A filesystem on which every path is a file decoding to `testImg`. -/
def fullFS : FileSys := ⟨fun _ => true, fun _ => some testImg⟩

/-- A concrete two-class model: constant forward scores `[1, 2]`, class
label `"74"` at output index 99 (an index `topk` can never select). -/
noncomputable def cPModel : PModel := ⟨fun _ => [1, 2], [("74", 99)]⟩

/-- The bundle `save_checkpoint` writes: epoch, weight state, optimizer
state, best accuracy, class-to-index mapping and class count.  Weight and
optimizer states are flat lists of parameter values. -/
structure Checkpoint where
  epoch : ℕ
  state_dict : List ℚ
  optimizer_state_dict : List ℚ
  best_acc : ℚ
  class_to_idx : List (String × ℕ)
  n_classes : ℕ
deriving DecidableEq

/-- A `NewModel` object as `save_checkpoint`/`load_checkpoint` see it.
`state_dict` holds the weight values; the remaining fields are plain Python
attributes attached to the object *after* construction (`model.epoch = …`
etc. in the training loop), so each is `Option`al — a freshly constructed
`NewModel` does not have them, and reading an absent one raises
`AttributeError`. -/
structure NModel where
  state_dict : List ℚ
  epoch : Option ℕ
  optimizer_state : Option (List ℚ)
  best_acc : Option ℚ
  class_to_idx : Option (List (String × ℕ))
  n_classes : Option ℕ
deriving DecidableEq

/-- The `NewModel(n_classes=…)` constructor: pretrained weights plus the
fresh classifier head initialization, as an opaque value `init`; no
training attributes, in particular no `class_to_idx`. -/
def NewModel (init : List ℚ) : NModel := ⟨init, none, none, none, none, none⟩

/-- Embedding of `save_checkpoint(model)`: bundle the six fields and write
them (the
file layer is composed with `load_checkpoint` directly).  Reading a missing
attribute on a never-trained model raises `AttributeError` (`none`). -/
def save_checkpoint (model : NModel) : Option Checkpoint :=
  match model.epoch, model.optimizer_state, model.best_acc,
      model.class_to_idx, model.n_classes with
  | some e, some os, some ba, some c2i, some nc =>
      some ⟨e, model.state_dict, os, ba, c2i, nc⟩
  | _, _, _, _, _ => none

/-- The rebuilt SGD optimizer after `optimizer.load_state_dict`. -/
structure SGDOptimizer where
  state : List ℚ
deriving DecidableEq

/-- Embedding of `load_checkpoint(model=None, filename)`: build a fresh
`NewModel` when
no model is given (with whatever initialization `fresh_init` the
environment provides), restore the weight state from the checkpoint
(failing, `none`, when the shapes do not match), rebuild an SGD optimizer
with the original hyperparameters and restore its state.  Note that the
function reads only `state_dict` and `optimizer_state_dict` from the
checkpoint: the saved `class_to_idx`, `epoch`, `best_acc` and `n_classes`
are never restored. -/
def load_checkpoint (given : Option NModel) (fresh_init : List ℚ)
    (ckpt : Checkpoint) : Option (NModel × SGDOptimizer) :=
  let model := match given with
    | none => NewModel fresh_init
    | some m => m
  if ckpt.state_dict.length = model.state_dict.length then
    some (⟨ckpt.state_dict, model.epoch, model.optimizer_state,
      model.best_acc, model.class_to_idx, model.n_classes⟩,
      ⟨ckpt.optimizer_state_dict⟩)
  else none

/-- Embedding of `validate(model, ...)`: the validation accuracy depends on
the model only
through its weight values, so it is any function of `state_dict` (the
loader, loss and device are folded into `evalAcc`). -/
def validationAccuracy (evalAcc : List ℚ → ℚ) (m : NModel) : ℚ :=
  evalAcc m.state_dict

/-- A trained model: weights `[1/2, -3, 7]`, 5 epochs, optimizer state
`[9]`, best accuracy `4/5`, classes `"74" ↦ 0`, `"21" ↦ 1`. -/
def trainedModel : NModel :=
  ⟨[1/2, -3, 7], some 5, some [9], some (4/5), some [("74", 0), ("21", 1)], some 2⟩

/-- The filesystem as `get_data` observes and mutates it: which paths
exist (`os.path.exists`; files and directories alike). -/
structure FSState where
  present : String → Bool

/-- The contents of the downloaded archive, as paths relative to the
extraction directory. -/
structure Archive where
  members : List String

/-- Side effects of `get_data` beyond the filesystem: the network
download. -/
inductive NetEffect
  | download (url : String)
deriving DecidableEq

/-- Embedding of `download_file(data_url)`: stream the URL into
`os.path.join(data_dir, basename(url))` — the source `download_file`
reads the module-global `data_dir`, which at its single call site equals
the `data_dir` argument of `get_data` — and return the filename. -/
def download_file (fs : FSState) (data_url : String) (global_data_dir : String) :
    FSState × String :=
  let fn := global_data_dir ++ "/" ++ ((data_url.splitOn "/").getLastD data_url)
  (⟨fun p => p == fn || fs.present p⟩, fn)

/-- Embedding of `get_data(url, data_dir, train_dirname)` (Python default
`/train`): return immediately
when the training directory exists; otherwise create `data_dir` if needed,
download the archive, extract its members under `data_dir`, and delete the
archive file.  The second component lists the network downloads
performed. -/
def get_data (fs : FSState) (archive : Archive) (url : String)
    (data_dir : String) (train_dirname : String) : FSState × List NetEffect :=
  let train_dir := data_dir ++ train_dirname
  if fs.present train_dir then (fs, [])
  else
    let fs1 : FSState :=
      if fs.present data_dir then fs else ⟨fun p => p == data_dir || fs.present p⟩
    let dl := download_file fs1 url data_dir
    let fs2 := dl.1
    let fn := dl.2
    let fs3 : FSState :=
      ⟨fun p => (archive.members.map (fun m => data_dir ++ "/" ++ m)).contains p
        || fs2.present p⟩
    let fs4 : FSState := ⟨fun p => if p == fn then false else fs3.present p⟩
    (fs4, [NetEffect.download url])

/-- A filesystem containing exactly the extracted training directory. -/
def flowersFS : FSState := ⟨fun p => p == "flowers/train"⟩

/-! ## Theorems: the specification claims -/

theorem topkSort_perm {α : Type} [LinearOrder α] (row : List α) :
    (topkSort row).Perm row.enum :=
  List.perm_insertionSort _ _

theorem length_topkSort {α : Type} [LinearOrder α] (row : List α) :
    (topkSort row).length = row.length := by
  rw [topkSort, List.length_insertionSort, List.enum_length]

theorem topkIdx_length {α : Type} [LinearOrder α] (k : ℕ) (row : List α) :
    (topkIdx k row).length = min k row.length := by
  simp [topkIdx, length_topkSort]

theorem topkVals_length {α : Type} [LinearOrder α] (k : ℕ) (row : List α) :
    (topkVals k row).length = min k row.length := by
  simp [topkVals, length_topkSort]

theorem topkSort_map_fst_perm {α : Type} [LinearOrder α] (row : List α) :
    ((topkSort row).map Prod.fst).Perm (List.range row.length) := by
  have h := (topkSort_perm row).map Prod.fst
  rwa [List.enum_map_fst] at h

theorem topkIdx_nodup {α : Type} [LinearOrder α] (k : ℕ) (row : List α) :
    (topkIdx k row).Nodup :=
  List.Nodup.sublist (List.take_sublist _ _)
    ((topkSort_map_fst_perm row).symm.nodup (List.nodup_range _))

theorem topkIdx_mem_lt {α : Type} [LinearOrder α] (k : ℕ) (row : List α)
    {i : ℕ} (h : i ∈ topkIdx k row) : i < row.length := by
  have h1 : i ∈ (topkSort row).map Prod.fst :=
    (List.take_sublist _ _).subset h
  have h2 := (topkSort_map_fst_perm row).subset h1
  simpa [List.mem_range] using h2

theorem topkIdx_take {α : Type} [LinearOrder α] {k k' : ℕ} (h : k ≤ k')
    (row : List α) : (topkIdx k' row).take k = topkIdx k row := by
  simp [topkIdx, List.take_take, inf_eq_left.mpr h]

/-- The maximum of a list of naturals, as computed by Python `max` (with
`0` standing in: the embedding guards the empty case separately). -/
theorem le_foldr_max (l : List ℕ) (a : ℕ) (h : a ∈ l) : a ≤ l.foldr max 0 := by
  induction l with
  | nil => cases h
  | cons b t ih =>
    rcases List.mem_cons.mp h with h | h
    · subst h; exact le_max_left _ _
    · exact le_trans (ih h) (le_max_right _ _)

/-- Sum of rational indicator values equals the `countP`. -/
theorem sum_boole_eq_countP {β : Type} (l : List β) (p : β → Bool) :
    (l.map (fun b => if p b then (1 : ℚ) else 0)).sum = (l.countP p : ℚ) := by
  induction l with
  | nil => simp
  | cons b t ih =>
    by_cases hb : p b
    · simp only [List.map_cons, List.sum_cons, List.countP_cons, hb, if_true, ih]
      push_cast
      ring
    · simp [List.countP_cons, hb, ih]

/-- C4: for every batch of score vectors and true labels, and all positions
`i`, `j` in the requested `top_k` list with `top_k[i] ≤ top_k[j]`, the
returned top-`top_k[i]` accuracy is at most the returned top-`top_k[j]`
accuracy: top-K accuracy is monotonically non-decreasing in K. -/
theorem accuracy_score_monotone (output : List (List ℚ)) (target : List ℕ)
    (top_k : List ℕ) (res : List ℚ) (i j : ℕ)
    (hres : accuracy_score output target top_k = some res)
    (hi : i < top_k.length) (hj : j < top_k.length)
    (hij : top_k.getD i 0 ≤ top_k.getD j 0) :
    res.getD i 0 ≤ res.getD j 0 := by
  rw [accuracy_score] at hres
  split at hres
  · exact absurd hres (by simp)
  · simp only [Option.some.injEq] at hres
    subst hres
    rw [List.getD_eq_getElem _ _ (by simpa using hi),
        List.getD_eq_getElem _ _ (by simpa using hj),
        List.getElem_map, List.getElem_map]
    rw [List.getD_eq_getElem _ _ hi, List.getD_eq_getElem _ _ hj] at hij
    apply mul_le_mul_of_nonneg_right _ (by positivity)
    apply List.sum_le_sum
    intro pt _
    have hsub : (pt.1.take (top_k[i])).Sublist (pt.1.take (top_k[j])) := by
      have heq : pt.1.take (top_k[i]) = (pt.1.take (top_k[j])).take (top_k[i]) := by
        rw [List.take_take, inf_eq_left.mpr hij]
      rw [heq]
      exact List.take_sublist _ _
    exact Nat.cast_le.mpr (hsub.countP_le _)

/-- Witness for `accuracy_score_monotone` at a concrete batch. -/
theorem accuracy_score_monotone_witness :
    accuracy_score [[1, 2, 3], [5, 4, 0]] [2, 1] [1, 2] = some [50, 100] ∧
    0 < ([1, 2] : List ℕ).length ∧ 1 < ([1, 2] : List ℕ).length ∧
    ([1, 2] : List ℕ).getD 0 0 ≤ ([1, 2] : List ℕ).getD 1 0 ∧
    ([50, 100] : List ℚ).getD 0 0 ≤ ([50, 100] : List ℚ).getD 1 0 := by
  have hres : accuracy_score [[1, 2, 3], [5, 4, 0]] [2, 1] [1, 2] = some [50, 100] := by
    norm_num [accuracy_score, topkIdx, topkSort, List.insertionSort,
      List.orderedInsert, List.enum, List.enumFrom]
    exact fun h => absurd h (by simp)
  exact ⟨hres, by decide, by decide, by decide,
    accuracy_score_monotone [[1, 2, 3], [5, 4, 0]] [2, 1] [1, 2] [50, 100] 0 1
      hres (by decide) (by decide) (by decide)⟩

/-- C5: on a non-empty batch of `N` score vectors with true labels, the
entry of `accuracy_score` for the requested `K = top_k[i]` equals (number
of examples whose true label is among the `K` highest-scoring indices of
its score vector) · 100 / N. -/
theorem accuracy_score_spec (output : List (List ℚ)) (target : List ℕ)
    (top_k : List ℕ) (res : List ℚ) (i : ℕ)
    (hres : accuracy_score output target top_k = some res)
    (hi : i < top_k.length)
    (hlen : output.length = target.length) :
    res.getD i 0 =
      (((output.zip target).countP
          (fun pt => decide (pt.2 ∈ topkIdx (top_k.getD i 0) pt.1))) : ℚ)
        * 100 / (target.length : ℚ) := by
  rw [accuracy_score] at hres
  split at hres
  · exact absurd hres (by simp)
  · simp only [Option.some.injEq] at hres
    subst hres
    rw [List.getD_eq_getElem _ _ (by simpa using hi), List.getElem_map,
        List.getD_eq_getElem _ _ hi, mul_div_assoc]
    have hk : top_k[i] ≤ top_k.foldr max 0 :=
      le_foldr_max _ _ (List.getElem_mem hi)
    congr 1
    rw [← sum_boole_eq_countP, List.zip_map_left, List.map_map]
    refine congrArg List.sum (List.map_congr_left ?_)
    intro pt _
    simp only [Function.comp_apply, Prod.map_fst, Prod.map_snd, id_eq]
    rw [topkIdx_take hk, ← List.count_eq_countP]
    by_cases hmem : pt.2 ∈ topkIdx (top_k[i]) pt.1
    · rw [List.count_eq_one_of_mem (topkIdx_nodup _ _) hmem]
      simp [hmem]
    · rw [List.count_eq_zero.mpr hmem]
      simp [hmem]

/-- Witness for `accuracy_score_spec` at a concrete batch. -/
theorem accuracy_score_spec_witness :
    accuracy_score [[1, 2, 3], [5, 4, 0]] [2, 1] [1, 2] = some [50, 100] ∧
    1 < ([1, 2] : List ℕ).length ∧
    ([[1, 2, 3], [5, 4, 0]] : List (List ℚ)).length = ([2, 1] : List ℕ).length ∧
    ([50, 100] : List ℚ).getD 1 0 =
      (((([[1, 2, 3], [5, 4, 0]] : List (List ℚ)).zip ([2, 1] : List ℕ)).countP
          (fun pt => decide (pt.2 ∈ topkIdx (([1, 2] : List ℕ).getD 1 0) pt.1))) : ℚ)
        * 100 / ((([2, 1] : List ℕ).length : ℚ)) := by
  have hres : accuracy_score [[1, 2, 3], [5, 4, 0]] [2, 1] [1, 2] = some [50, 100] := by
    norm_num [accuracy_score, topkIdx, topkSort, List.insertionSort,
      List.orderedInsert, List.enum, List.enumFrom]
    exact fun h => absurd h (by simp)
  exact ⟨hres, by decide, by decide,
    accuracy_score_spec [[1, 2, 3], [5, 4, 0]] [2, 1] [1, 2] [50, 100] 1
      hres (by decide) (by decide)⟩

/-- C7: `reset()` zeroes value, sum, count and mean; every successful
`update(v, n)` call adds `v*n` to the sum and `n` to the count, recomputes
the mean as the new sum over the new count, and stores the raw value. -/
theorem valuecache_update_spec (s : ValueCache) (v : ℚ) (n : ℤ) (s' : ValueCache)
    (h : ValueCache.update s v n = some s') :
    (ValueCache.reset s).value = 0 ∧ (ValueCache.reset s).sum = 0 ∧
    (ValueCache.reset s).count = 0 ∧ (ValueCache.reset s).mean = 0 ∧
    s'.sum = s.sum + v * (n : ℚ) ∧ s'.count = s.count + n ∧
    s'.mean = s'.sum / (s'.count : ℚ) ∧ s'.value = v := by
  rw [ValueCache.update] at h
  split at h
  · exact absurd h (by simp)
  · simp only [Option.some.injEq] at h
    subst h
    exact ⟨rfl, rfl, rfl, rfl, rfl, rfl, rfl, rfl⟩

/-- Witness for `valuecache_update_spec` at a concrete update call. -/
theorem valuecache_update_spec_witness :
    ValueCache.update ValueCache.init 5 2 = some ⟨5, 10, 2, 5⟩ ∧
    ((⟨5, 10, 2, 5⟩ : ValueCache).sum = ValueCache.init.sum + 5 * ((2 : ℤ) : ℚ) ∧
      (⟨5, 10, 2, 5⟩ : ValueCache).count = ValueCache.init.count + 2 ∧
      (⟨5, 10, 2, 5⟩ : ValueCache).value = 5) := by
  have h : ValueCache.update ValueCache.init 5 2 = some ⟨5, 10, 2, 5⟩ := by
    norm_num [ValueCache.update, ValueCache.init, ValueCache.reset]
  have hspec := valuecache_update_spec ValueCache.init 5 2 ⟨5, 10, 2, 5⟩ h
  exact ⟨h, hspec.2.2.2.2.1, hspec.2.2.2.2.2.1, hspec.2.2.2.2.2.2.2⟩

/-- C8 counterexample.  The claim says a division by zero is possible only
when `update` is never called before `mean` is read.  In the code, reading
`mean` never divides: after `reset()` it is the stored value `0.0`
(second conjunct — a defined read, not a zero division).  The only division
is inside `update`, and an `update` call can itself divide by zero: the
first update with weight `n = 0` leaves the count at zero (first conjunct,
`none` = `ZeroDivisionError`).  So division by zero occurs in a usage other
than the claimed one, and the claimed usage performs no division. -/
theorem valuecache_divzero_counterexample :
    ValueCache.update ValueCache.init 5 0 = none ∧ ValueCache.init.mean = 0 := by
  constructor
  · rw [ValueCache.update]
    norm_num [ValueCache.init, ValueCache.reset]
  · rfl

/-- C8 as amended: the only division of the tracker is inside `update`;
`update(v, n)` divides by zero exactly when the new count `s.count + n` is
zero (so never when the old count is non-negative and the weight is
positive, which covers every call site in the notebook), and reading `mean`
immediately after `reset()` returns the defined stored value `0` without
performing any division. -/
theorem valuecache_divzero_spec (s : ValueCache) (v : ℚ) (n : ℤ) :
    (ValueCache.update s v n = none ↔ s.count + n = 0) ∧
    (ValueCache.reset s).mean = 0 ∧
    (0 ≤ s.count → 1 ≤ n → ValueCache.update s v n ≠ none) := by
  refine ⟨?_, rfl, ?_⟩
  · rw [ValueCache.update]
    split
    · simpa
    · simpa
  · intro hc hn
    rw [ValueCache.update]
    split
    · omega
    · simp

/-- Witness for `valuecache_divzero_spec` at a concrete state. -/
theorem valuecache_divzero_spec_witness :
    (0 : ℤ) ≤ ValueCache.init.count ∧ (1 : ℤ) ≤ 2 ∧
    ValueCache.update ValueCache.init 3 2 ≠ none :=
  ⟨by decide, by decide,
    (valuecache_divzero_spec ValueCache.init 3 2).2.2 (by decide) (by decide)⟩

theorem pyint_of_nonneg {q : ℚ} (h : 0 ≤ q) : pyint q = ⌊q⌋ := if_pos h

/-- Truncating `(S+32)/a * a` recovers `S+32` exactly. -/
theorem resize_shorter (S a : ℕ) (ha : 1 ≤ a) :
    pyint (((S : ℚ) + 32) / (a : ℚ) * (a : ℚ)) = (S : ℤ) + 32 := by
  have haQ : ((a : ℚ)) ≠ 0 := Nat.cast_ne_zero.mpr (by omega)
  rw [div_mul_cancel₀ _ haQ, pyint_of_nonneg (by positivity),
    show ((S : ℚ) + 32) = (((S : ℤ) + 32 : ℤ) : ℚ) by push_cast; ring]
  exact Int.floor_intCast _

/-- The side rescaled by `(S+32)/a` with `a ≤ b` stays at least `S+32`. -/
theorem resize_longer (S a b : ℕ) (ha : 1 ≤ a) (hab : a ≤ b) :
    (S : ℤ) + 32 ≤ pyint (((S : ℚ) + 32) / (a : ℚ) * (b : ℚ)) := by
  have haQ : ((a : ℚ)) ≠ 0 := Nat.cast_ne_zero.mpr (by omega)
  rw [pyint_of_nonneg (by positivity), Int.le_floor]
  calc (((S : ℤ) + 32 : ℤ) : ℚ) = (S : ℚ) + 32 := by push_cast; ring
    _ = ((S : ℚ) + 32) / (a : ℚ) * (a : ℚ) := (div_mul_cancel₀ _ haQ).symm
    _ ≤ ((S : ℚ) + 32) / (a : ℚ) * (b : ℚ) :=
        mul_le_mul_of_nonneg_left (by exact_mod_cast hab) (by positivity)

/-- Truncating both rescaled sides perturbs the aspect ratio by less than
`1/(S+32)` (shorter side `a`, longer side `b`). -/
theorem resize_aspect (S a b : ℕ) (ha : 1 ≤ a) (hab : a ≤ b) :
    |((pyint (((S : ℚ) + 32) / (a : ℚ) * (a : ℚ)) : ℚ) /
        (pyint (((S : ℚ) + 32) / (a : ℚ) * (b : ℚ)) : ℚ) -
      (a : ℚ) / (b : ℚ))| < 1 / ((S : ℚ) + 32) := by
  have haQ : (0 : ℚ) < (a : ℚ) := by exact_mod_cast ha
  have habQ : (a : ℚ) ≤ (b : ℚ) := by exact_mod_cast hab
  have hbQ : (0 : ℚ) < (b : ℚ) := lt_of_lt_of_le haQ habQ
  have hA : (0 : ℚ) < (S : ℚ) + 32 := by positivity
  rw [resize_shorter S a ha]
  set H := pyint (((S : ℚ) + 32) / (a : ℚ) * (b : ℚ)) with hH
  have hHge : ((S : ℤ) + 32) ≤ H := resize_longer S a b ha hab
  have hAleH : (S : ℚ) + 32 ≤ (H : ℚ) := by
    calc (S : ℚ) + 32 = (((S : ℤ) + 32 : ℤ) : ℚ) := by push_cast; ring
      _ ≤ (H : ℚ) := by exact_mod_cast hHge
  have hHQ : (0 : ℚ) < (H : ℚ) := lt_of_lt_of_le hA hAleH
  have hfloor : H = ⌊((S : ℚ) + 32) / (a : ℚ) * (b : ℚ)⌋ := by
    rw [hH, pyint_of_nonneg (by positivity)]
  have hub : (H : ℚ) ≤ ((S : ℚ) + 32) / (a : ℚ) * (b : ℚ) := by
    rw [hfloor]; exact Int.floor_le _
  have hlb : ((S : ℚ) + 32) / (a : ℚ) * (b : ℚ) - 1 < (H : ℚ) := by
    rw [hfloor]; exact Int.sub_one_lt_floor _
  have hkey : (a : ℚ) * (((S : ℚ) + 32) / (a : ℚ) * (b : ℚ)) = ((S : ℚ) + 32) * (b : ℚ) := by
    field_simp
  have hdiff : (((S : ℤ) + 32 : ℤ) : ℚ) / (H : ℚ) - (a : ℚ) / (b : ℚ)
      = (((S : ℚ) + 32) * (b : ℚ) - (H : ℚ) * (a : ℚ)) / ((H : ℚ) * (b : ℚ)) := by
    rw [show (((S : ℤ) + 32 : ℤ) : ℚ) = (S : ℚ) + 32 by push_cast; ring,
      div_sub_div _ _ (ne_of_gt hHQ) (ne_of_gt hbQ)]
  have hnum_ub : ((S : ℚ) + 32) * (b : ℚ) - (H : ℚ) * (a : ℚ) < (a : ℚ) := by
    have h1 : ((S : ℚ) + 32) * (b : ℚ) - (a : ℚ)
        = (a : ℚ) * (((S : ℚ) + 32) / (a : ℚ) * (b : ℚ) - 1) := by
      rw [mul_sub, hkey, mul_one]
    have h2 : (a : ℚ) * (((S : ℚ) + 32) / (a : ℚ) * (b : ℚ) - 1) < (a : ℚ) * (H : ℚ) :=
      mul_lt_mul_of_pos_left hlb haQ
    nlinarith
  have hnum_nonneg : 0 ≤ ((S : ℚ) + 32) * (b : ℚ) - (H : ℚ) * (a : ℚ) := by
    have h2 : (a : ℚ) * (H : ℚ) ≤ (a : ℚ) * (((S : ℚ) + 32) / (a : ℚ) * (b : ℚ)) :=
      mul_le_mul_of_nonneg_left hub (le_of_lt haQ)
    nlinarith
  rw [hdiff, abs_of_nonneg (div_nonneg hnum_nonneg (le_of_lt (mul_pos hHQ hbQ))),
    div_lt_div_iff₀ (mul_pos hHQ hbQ) hA]
  calc (((S : ℚ) + 32) * (b : ℚ) - (H : ℚ) * (a : ℚ)) * ((S : ℚ) + 32)
      < (a : ℚ) * ((S : ℚ) + 32) := mul_lt_mul_of_pos_right hnum_ub hA
    _ ≤ (b : ℚ) * (H : ℚ) := mul_le_mul habQ hAleH (le_of_lt hA) (le_of_lt hbQ)
    _ = 1 * ((H : ℚ) * (b : ℚ)) := by ring

/-- C6: `process_image` resizes with a single scale factor so that the
shortest side becomes exactly `S+32`, preserves the aspect ratio up to a
tolerance of `1/(S+32)`, center-crops an `S × S` square, rescales pixel
values by `1/255`, normalizes them channelwise by `imgMean`/`imgStd`, and
returns a channel-first array of exactly `S × S` pixels. -/
theorem process_image_spec (image : PILImage) (S : ℕ) (c : Fin 3) (y x : ℕ)
    (hw : 1 ≤ image.width) (hh : 1 ≤ image.height) :
    min (resizedW image S) (resizedH image S) = (S : ℤ) + 32 ∧
    (image.width ≤ image.height →
      |((resizedW image S : ℤ) : ℚ) / ((resizedH image S : ℤ) : ℚ) -
        (image.width : ℚ) / (image.height : ℚ)| < 1 / ((S : ℚ) + 32)) ∧
    (image.height ≤ image.width →
      |((resizedH image S : ℤ) : ℚ) / ((resizedW image S : ℤ) : ℚ) -
        (image.height : ℚ) / (image.width : ℚ)| < 1 / ((S : ℚ) + 32)) ∧
    (process_image image S).height = S ∧
    (process_image image S).width = S ∧
    (process_image image S).entry c y x =
      (((image.resize (resizedW image S) (resizedH image S)).px
          (cropLeft image S + (x : ℤ)) (cropUpper image S + (y : ℤ)) c : ℤ) / (255 : ℚ)
        - imgMean c) / imgStd c := by
  refine ⟨?_, ?_, ?_, ?_, ?_, rfl⟩
  · rcases le_total image.width image.height with hwh | hwh
    · have hmin : ((min image.width image.height : ℕ) : ℚ) = (image.width : ℚ) := by
        rw [min_eq_left hwh]
      have hW : resizedW image S = (S : ℤ) + 32 := by
        rw [resizedW, rescale, hmin]; exact resize_shorter S image.width hw
      have hHge : (S : ℤ) + 32 ≤ resizedH image S := by
        rw [resizedH, rescale, hmin]
        exact resize_longer S image.width image.height hw hwh
      rw [hW]
      exact min_eq_left hHge
    · have hmin : ((min image.width image.height : ℕ) : ℚ) = (image.height : ℚ) := by
        rw [min_eq_right hwh]
      have hHeq : resizedH image S = (S : ℤ) + 32 := by
        rw [resizedH, rescale, hmin]; exact resize_shorter S image.height hh
      have hWge : (S : ℤ) + 32 ≤ resizedW image S := by
        rw [resizedW, rescale, hmin]
        exact resize_longer S image.height image.width hh hwh
      rw [hHeq]
      exact min_eq_right hWge
  · intro hwh
    have hmin : ((min image.width image.height : ℕ) : ℚ) = (image.width : ℚ) := by
      rw [min_eq_left hwh]
    rw [resizedW, resizedH, rescale, hmin]
    exact resize_aspect S image.width image.height hw hwh
  · intro hwh
    have hmin : ((min image.width image.height : ℕ) : ℚ) = (image.height : ℚ) := by
      rw [min_eq_right hwh]
    rw [resizedW, resizedH, rescale, hmin]
    exact resize_aspect S image.height image.width hh hwh
  · simp only [process_image, PILImage.crop, NPArrayHWC.transposeCHW,
      NPArrayHWC.normalize, NPArrayHWC.divScalar, npOfImage]
    omega
  · simp only [process_image, PILImage.crop, NPArrayHWC.transposeCHW,
      NPArrayHWC.normalize, NPArrayHWC.divScalar, npOfImage]
    omega

/-- Witness for `process_image_spec` on the concrete `testImg`. -/
theorem process_image_spec_witness :
    1 ≤ testImg.width ∧ 1 ≤ testImg.height ∧
    (min (resizedW testImg 299) (resizedH testImg 299) = (299 : ℤ) + 32 ∧
    (testImg.width ≤ testImg.height →
      |((resizedW testImg 299 : ℤ) : ℚ) / ((resizedH testImg 299 : ℤ) : ℚ) -
        (testImg.width : ℚ) / (testImg.height : ℚ)| < 1 / ((299 : ℚ) + 32)) ∧
    (testImg.height ≤ testImg.width →
      |((resizedH testImg 299 : ℤ) : ℚ) / ((resizedW testImg 299 : ℤ) : ℚ) -
        (testImg.height : ℚ) / (testImg.width : ℚ)| < 1 / ((299 : ℚ) + 32)) ∧
    (process_image testImg 299).height = 299 ∧
    (process_image testImg 299).width = 299 ∧
    (process_image testImg 299).entry 0 0 0 =
      (((testImg.resize (resizedW testImg 299) (resizedH testImg 299)).px
          (cropLeft testImg 299 + ((0 : ℕ) : ℤ)) (cropUpper testImg 299 + ((0 : ℕ) : ℤ)) 0 : ℤ)
            / (255 : ℚ)
        - imgMean 0) / imgStd 0) :=
  ⟨by decide, by decide, process_image_spec testImg 299 0 0 0 (by decide) (by decide)⟩

theorem softmax_nonneg (xs : List ℝ) : ∀ p ∈ softmax xs, 0 ≤ p := by
  intro p hp
  obtain ⟨v, _, rfl⟩ := List.mem_map.mp hp
  refine div_nonneg (Real.exp_pos v).le (List.sum_nonneg ?_)
  intro q hq
  obtain ⟨u, _, rfl⟩ := List.mem_map.mp hq
  exact (Real.exp_pos u).le

theorem softmax_sum (xs : List ℝ) (h : xs ≠ []) : (softmax xs).sum = 1 := by
  have hpos : 0 < (xs.map Real.exp).sum := by
    refine List.sum_pos _ ?_ (by simpa using h)
    intro q hq
    obtain ⟨u, _, rfl⟩ := List.mem_map.mp hq
    exact Real.exp_pos u
  rw [softmax]
  simp only [div_eq_mul_inv]
  rw [List.sum_map_mul_right]
  exact mul_inv_cancel₀ (ne_of_gt hpos)

theorem lookup_eq_none_of_not_mem {α β : Type} [BEq α] [LawfulBEq α]
    (l : List (α × β)) (key : α) (h : key ∉ l.map Prod.fst) :
    l.lookup key = none := by
  induction l with
  | nil => rfl
  | cons p t ih =>
    obtain ⟨a, b⟩ := p
    simp only [List.map_cons, List.mem_cons] at h
    push_neg at h
    obtain ⟨h1, h2⟩ := h
    have hbeq : (key == a) = false := beq_eq_false_iff_ne.mpr h1
    simp [List.lookup, hbeq, ih h2]

theorem dictGet_eq_none {α β : Type} [BEq α] [LawfulBEq α]
    (pairs : List (α × β)) (key : α) (h : key ∉ pairs.map Prod.fst) :
    dictGet pairs key = none := by
  rw [dictGet]
  apply lookup_eq_none_of_not_mem
  simpa [List.map_reverse] using h

/-- C2: `predict` raises `FileNotFoundError` exactly when the path is not
an existing file; in the missing-file case no decoding (or any later) error
is reached and the result does not depend on the model at all. -/
theorem predict_file_not_found (fs : FileSys) (path : String) (model : PModel)
    (k : ℕ) :
    (predict fs path model k = .error (.fileNotFound path) ↔
      fs.isfile path = false) ∧
    (fs.isfile path = false →
      ∀ (model' : PModel) (k' : ℕ),
        predict fs path model k = predict fs path model' k') := by
  constructor
  · constructor
    · intro h
      cases hfile : fs.isfile path with
      | false => rfl
      | true =>
        exfalso
        rw [predict, if_neg (by simp [hfile])] at h
        cases hopen : fs.openImage path with
        | none => rw [hopen] at h; exact absurd h (by simp)
        | some img =>
          rw [hopen] at h
          dsimp only at h
          by_cases hlen :
              (model.forward (process_image img 299)).length < k
          · rw [if_pos hlen] at h; exact absurd h (by simp)
          · rw [if_neg hlen] at h
            cases hcls : model.class_to_idx with
            | nil => rw [hcls] at h; exact absurd h (by simp)
            | cons p t => rw [hcls] at h; exact absurd h (by simp)
    · intro hfile
      rw [predict, if_pos hfile]
  · intro hfile model' k'
    rw [predict, if_pos hfile, predict, if_pos hfile]

/-- Witness for `predict_file_not_found` on a missing path. -/
theorem predict_file_not_found_witness :
    emptyFS.isfile "./nonexistent.jpg" = false ∧
    predict emptyFS "./nonexistent.jpg" cPModel 5 =
      .error (.fileNotFound "./nonexistent.jpg") :=
  ⟨rfl, (predict_file_not_found emptyFS "./nonexistent.jpg" cPModel 5).1.mpr rfl⟩

/-- C3: on an existing, decodable image and `1 ≤ k ≤ #classes` (with a
non-empty class mapping), `predict` succeeds and its probability vector is
the softmax of exactly the `k` selected top scores — not of the full output
vector — so every returned probability is non-negative and the `k` returned
probabilities sum to 1. -/
theorem predict_softmax_spec (fs : FileSys) (path : String) (model : PModel)
    (k : ℕ) (img : PILImage) (p0 : String × ℕ) (rest : List (String × ℕ))
    (hfile : fs.isfile path = true) (hopen : fs.openImage path = some img)
    (hcls : model.class_to_idx = p0 :: rest)
    (hk : 1 ≤ k) (hlen : k ≤ (model.forward (process_image img 299)).length) :
    ∃ labels image,
      predict fs path model k =
        .ok (softmax (topkVals k (model.forward (process_image img 299))),
          labels, image) ∧
      (∀ p ∈ softmax (topkVals k (model.forward (process_image img 299))),
        0 ≤ p) ∧
      (softmax (topkVals k (model.forward (process_image img 299)))).sum = 1 := by
  refine ⟨(topkIdx k (model.forward (process_image img 299))).map
      (fun i => dictGet ((p0 :: rest).map (fun p => (p.2, p.1))) i),
    process_image img 299, ?_, softmax_nonneg _, softmax_sum _ ?_⟩
  · rw [predict, if_neg (by simp [hfile]), hopen]
    dsimp only
    rw [if_neg (not_lt.mpr hlen), hcls]
  · intro hempty
    have hlength := topkVals_length k (model.forward (process_image img 299))
    rw [hempty] at hlength
    simp only [List.length_nil] at hlength
    omega

/-- Witness for `predict_softmax_spec` on the concrete model. -/
theorem predict_softmax_spec_witness :
    fullFS.isfile "img.jpg" = true ∧
    fullFS.openImage "img.jpg" = some testImg ∧
    cPModel.class_to_idx = ("74", 99) :: [] ∧
    1 ≤ 1 ∧ 1 ≤ (cPModel.forward (process_image testImg 299)).length ∧
    (∃ labels image,
      predict fullFS "img.jpg" cPModel 1 =
        .ok (softmax (topkVals 1 (cPModel.forward (process_image testImg 299))),
          labels, image) ∧
      (∀ p ∈ softmax (topkVals 1 (cPModel.forward (process_image testImg 299))),
        0 ≤ p) ∧
      (softmax (topkVals 1 (cPModel.forward (process_image testImg 299)))).sum = 1) :=
  ⟨rfl, rfl, rfl, le_refl 1, by simp [cPModel],
    predict_softmax_spec fullFS "img.jpg" cPModel 1 testImg ("74", 99) []
      rfl rfl rfl (le_refl 1) (by simp [cPModel])⟩

/-- C10: a selected top-K output index that is absent from the
class-to-index mapping of the model is silently sent to `None` in the returned label
list by `idx_to_class.get`, and `predict` still succeeds. -/
theorem predict_absent_index_spec (fs : FileSys) (path : String)
    (model : PModel) (k : ℕ) (img : PILImage) (p0 : String × ℕ)
    (rest : List (String × ℕ)) (j : ℕ)
    (hfile : fs.isfile path = true) (hopen : fs.openImage path = some img)
    (hcls : model.class_to_idx = p0 :: rest)
    (hlen : k ≤ (model.forward (process_image img 299)).length)
    (hj : j < (topkIdx k (model.forward (process_image img 299))).length)
    (hmiss : (topkIdx k (model.forward (process_image img 299))).getD j 0 ∉
      model.class_to_idx.map Prod.snd) :
    ∃ prob labels image,
      predict fs path model k = .ok (prob, labels, image) ∧
      labels.getD j (some "") = none := by
  refine ⟨softmax (topkVals k (model.forward (process_image img 299))),
    (topkIdx k (model.forward (process_image img 299))).map
      (fun i => dictGet ((p0 :: rest).map (fun p => (p.2, p.1))) i),
    process_image img 299, ?_, ?_⟩
  · rw [predict, if_neg (by simp [hfile]), hopen]
    dsimp only
    rw [if_neg (not_lt.mpr hlen), hcls]
  · rw [List.getD_eq_getElem _ _ (by simpa using hj), List.getElem_map]
    apply dictGet_eq_none
    have hfst : ((p0 :: rest).map (fun p => (p.2, p.1))).map Prod.fst =
        (p0 :: rest).map Prod.snd := by
      rw [List.map_map]; rfl
    rw [hfst]
    rw [hcls] at hmiss
    rwa [List.getD_eq_getElem _ 0 hj] at hmiss

/-- Witness for `predict_absent_index_spec`: the concrete model maps its
only class to output index 99, which the top-1 selection (an index below
the output length 2) can never produce, so the returned label is `None`. -/
theorem predict_absent_index_spec_witness :
    (∃ prob labels image,
      predict fullFS "img.jpg" cPModel 1 = .ok (prob, labels, image) ∧
      labels.getD 0 (some "") = none) := by
  have hlen : 1 ≤ (cPModel.forward (process_image testImg 299)).length := by
    simp [cPModel]
  have hj : 0 < (topkIdx 1 (cPModel.forward (process_image testImg 299))).length := by
    rw [topkIdx_length]
    simp [cPModel]
  have hmiss : (topkIdx 1 (cPModel.forward (process_image testImg 299))).getD 0 0 ∉
      cPModel.class_to_idx.map Prod.snd := by
    have hmem : (topkIdx 1 (cPModel.forward (process_image testImg 299))).getD 0 0 ∈
        topkIdx 1 (cPModel.forward (process_image testImg 299)) := by
      rw [List.getD_eq_getElem _ _ hj]
      exact List.getElem_mem hj
    have hlt := topkIdx_mem_lt 1 (cPModel.forward (process_image testImg 299)) hmem
    simp only [cPModel] at hlt ⊢
    simp only [List.length_cons, List.length_nil] at hlt
    simp only [List.map_cons, List.map_nil, List.mem_singleton]
    omega
  exact predict_absent_index_spec fullFS "img.jpg" cPModel 1 testImg ("74", 99) [] 0
    rfl rfl rfl hlen hj hmiss

/-- C1 (checkpoint round-trip), evaluated at a concrete trained model.
Saving and reloading through a fresh model shell (`model=None`, the
round-trip test of the notebook itself) restores the weight values exactly — hence
the validation accuracy, which depends on the model only through its
weights, is reproduced for every evaluation function — but the
class-to-index mapping saved in the checkpoint is never read back:
the reloaded model has no `class_to_idx` attribute at all, contradicting
the claimed identical mapping. -/
theorem checkpoint_roundtrip_loses_class_to_idx :
    ∃ ckpt reloaded opt,
      save_checkpoint trainedModel = some ckpt ∧
      load_checkpoint none [0, 0, 0] ckpt = some (reloaded, opt) ∧
      reloaded.state_dict = trainedModel.state_dict ∧
      (∀ evalAcc : List ℚ → ℚ,
        validationAccuracy evalAcc reloaded = validationAccuracy evalAcc trainedModel) ∧
      trainedModel.class_to_idx = some [("74", 0), ("21", 1)] ∧
      reloaded.class_to_idx = none := by
  refine ⟨⟨5, [1/2, -3, 7], [9], 4/5, [("74", 0), ("21", 1)], 2⟩,
    ⟨[1/2, -3, 7], none, none, none, none, none⟩, ⟨[9]⟩, rfl, ?_, rfl,
    fun _ => rfl, rfl, rfl⟩
  rw [load_checkpoint]
  rfl

/-- C9: when the target training directory already exists, `get_data`
returns at once: no download happens and the filesystem is returned
unchanged (no file or directory is created, modified or removed). -/
theorem get_data_skips_when_train_dir_exists (fs : FSState) (archive : Archive)
    (url : String) (data_dir : String) (train_dirname : String)
    (h : fs.present (data_dir ++ train_dirname) = true) :
    get_data fs archive url data_dir train_dirname = (fs, []) := by
  rw [get_data]
  dsimp only
  rw [if_pos h]

/-- Witness for `get_data_skips_when_train_dir_exists` on the actual
arguments used in the notebook. -/
theorem get_data_skips_witness :
    flowersFS.present ("flowers" ++ "/train") = true ∧
    get_data flowersFS ⟨["train", "valid", "test"]⟩
      "https://s3.amazonaws.com/content.udacity-data.com/nd089/flower_data.tar.gz"
      "flowers" "/train" = (flowersFS, []) :=
  ⟨rfl, get_data_skips_when_train_dir_exists flowersFS ⟨["train", "valid", "test"]⟩
    "https://s3.amazonaws.com/content.udacity-data.com/nd089/flower_data.tar.gz"
    "flowers" "/train" rfl⟩

end FlowerNotebook
